import Mathlib

/-!
Verification of the Arachnida Spider crawler
(`src/Arachnida/Spider/src/main.rs`), a recursive, depth-bounded image
crawler.  External effects — the HTTP client (`reqwest`), the `url` crate's
parser and reference resolution, the HTML parser and the filesystem — are
modelled as oracle functions supplied as parameters; the crawler's own
control flow, the visited registry, the extraction filters and the filename
computation are embedded directly from the source.  Strings are modelled by
Lean `String` (a list of characters), and the character-splitting behaviour
of Rust's `str::split` is embedded as `splitChar`.
-/

namespace Spider

/-- `Settings` (main.rs, lines 34–39): recursive flag, maximum depth and
output directory, immutable for one crawl. -/
structure Settings where
  recursive : Bool
  depth : Nat
  path : String

/-- Model of a resolved `url::Url` value: the only components the Spider
inspects are `host()` (line 155), `path()` (line 170), and the rendering
`to_string()` (lines 144 and 156). -/
structure UrlM where
  host : Option String
  path : String
  str : String

/-- Embedding of Rust `str::split(c)` collected to a list: splits at every
occurrence of `c` and always yields at least one (possibly empty) piece,
exactly like the Rust iterator (`"".split('.')` yields `[""]`,
`"/a/".split('/')` yields `["", "a", ""]`). -/
def splitChar (c : Char) : List Char → List (List Char)
  | [] => [[]]
  | a :: rest =>
    match splitChar c rest with
    | [] => [[a]]
    | h :: t => if a = c then [] :: h :: t else (a :: h) :: t

/-- Embedding of Rust `str::starts_with` on string literals. -/
def starts_with (pre s : String) : Bool :=
  pre.data.isPrefixOf s.data

/-- Embedding of Rust `str::trim_end_matches(c)`: removes every trailing
occurrence of `c`. -/
def trim_end_matches (s : String) (c : Char) : String :=
  String.mk ((s.data.reverse.dropWhile (fun a => a = c)).reverse)

/-- The accepted image extensions (main.rs, line 132). -/
def valid_extensions : List String := ["jpg", "jpeg", "png", "gif", "bmp"]

/-- Embedding of `str::to_lowercase` (ASCII-relevant part, which is all the
extension comparison exercises): lowercase every character. -/
def to_lowercase (s : String) : String :=
  String.mk (s.data.map Char.toLower)

/-- `has_valid_extension` (main.rs, lines 216–221): takes the piece after
the last `'.'` of the whole candidate string (`url.split('.').last()`),
lowercases it and tests membership in `valid_extensions`.  Rust's
`split(..).last()` on a `&str` always yields `Some` piece, mirrored here by
`(splitChar c _).getLast?` never being `none`. -/
def has_valid_extension (url : String) (valid_exts : List String) : Bool :=
  match (splitChar '.' url.data).getLast? with
  | some extension => valid_exts.contains (to_lowercase (String.mk extension))
  | none => false

/-- The image-extraction loop of `fetch_and_parse_page` (main.rs, lines
137–149): for each `src` attribute in document order, skip `data:` URLs,
keep only sources passing `has_valid_extension`, resolve against the base
URL (`base_url.join`, supplied as the oracle `join`; failures drop the
candidate) and record the resolved URL's string rendering. -/
def extract_images (join : String → Option UrlM) : List String → List String
  | [] => []
  | src :: rest =>
    if !starts_with "data:" src then
      if has_valid_extension src valid_extensions then
        match join src with
        | some absolute_url => absolute_url.str :: extract_images join rest
        | none => extract_images join rest
      else extract_images join rest
    else extract_images join rest

/-- The link-extraction loop of `fetch_and_parse_page` (main.rs, lines
151–160): each `href` attribute is resolved against the base URL; a
resolved link is kept exactly when its host component equals the base
URL's host component. -/
def extract_links (base_url : UrlM) (join : String → Option UrlM) :
    List String → List String
  | [] => []
  | href :: rest =>
    match join href with
    | some absolute_url =>
      if absolute_url.host = base_url.host then
        absolute_url.str :: extract_links base_url join rest
      else extract_links base_url join rest
    | none => extract_links base_url join rest

/-- `fetch_and_parse_page` (main.rs, lines 121–163): parse the page URL
(`Url::parse`, oracle `parse`; its `Err` propagates), perform the GET and
HTML parse (oracle `http`, returning the documents' `src` and `href`
attribute lists in document order; transport and decoding errors
propagate), then run the two extraction loops. -/
def fetch_and_parse_page (parse : String → Except String UrlM)
    (http : String → Except String (List String × List String))
    (join : UrlM → String → Option UrlM) (url : String) :
    Except String (List String × List String) :=
  match parse url with
  | .error e => .error e
  | .ok base_url =>
    match http url with
    | .error e => .error e
    | .ok (srcs, hrefs) =>
      .ok (extract_images (join base_url) srcs,
           extract_links base_url (join base_url) hrefs)

/-- The destination-filename computation of `download_image` (main.rs,
lines 166–171): `format!("{}/{}", base_path.trim_end_matches('/'),
parsed_url.path().split('/').last().unwrap_or("unknown.jpg"))`, as a
function of the parsed image URL's path component. -/
def download_filename (base_path : String) (url_path : String) : String :=
  trim_end_matches base_path '/' ++ "/" ++
    (((splitChar '/' url_path.data).map String.mk).getLast?.getD "unknown.jpg")

/-- The URL path of a reference string, stated from the specification's
words ("extension is the substring after the last `.` in the URL path"):
the part of the reference before any query (`?`) or fragment (`#`)
component.  This definition follows the spec, for comparison with
`has_valid_extension`, which the source applies to the whole reference. -/
def url_path_of (s : String) : String :=
  String.mk (((splitChar '?' s.data).headD s.data).takeWhile (fun c => c ≠ '#'))

/-- The extension of a reference per the specification's words: the
substring after the last `.` of its URL path. -/
def spec_path_extension (s : String) : String :=
  String.mk ((splitChar '.' (url_path_of s).data).getLast?.getD [])

/-- `should_process_url` (main.rs, lines 112–119): the visited registry's
atomic claim.  The `HashSet<String>` behind the mutex is modelled by the
list of its members; the lock's atomicity is modelled by the test and the
insertion being one function.  The Rust function returns
`Result<bool, _>` but has no error path, so it always yields `.ok`. -/
def should_process_url (url : String) (visited : List String) :
    Except String (Bool × List String) :=
  if url ∈ visited then .ok (false, visited)
  else .ok (true, url :: visited)

/-- The observable crawl state: the shared visited registry plus three
instrumentation logs — every invocation of `fetch_and_parse_page` with the
depth it happened at, every invocation of `download_image`, and the
downloads that succeeded. -/
structure CrawlState where
  visited : List String
  fetched : List (String × Nat)
  attempts : List String
  saved : List String

/-- The initial crawl state: the registry starts empty (main.rs, line 56). -/
def init_state : CrawlState := ⟨[], [], [], []⟩

/-- The image-download loop of `get_page_content` (main.rs, lines 96–102):
each extracted image URL is passed to `download_image` (network and
filesystem outcome supplied by the oracle `downloadO`); a failure is
logged and the loop continues with the remaining images. -/
def download_images (downloadO : String → Except String Unit) :
    List String → CrawlState → CrawlState
  | [], s => s
  | img :: rest, s =>
    match downloadO img with
    | .ok _ => download_images downloadO rest
        { s with attempts := s.attempts ++ [img], saved := s.saved ++ [img] }
    | .error _ => download_images downloadO rest
        { s with attempts := s.attempts ++ [img] }

/-- The depth/mode gate expression of `get_page_content` (main.rs, lines
75–76): `(settings.recursive && current_depth > settings.depth) ||
(!settings.recursive && current_depth >= 1)`. -/
def depth_gate (settings : Settings) (current_depth : Nat) : Bool :=
  (settings.recursive && decide (current_depth > settings.depth)) ||
    (!settings.recursive && decide (current_depth ≥ 1))

mutual

/-- `get_page_content` (main.rs, lines 66–110), the crawl orchestrator for
one `(url, current_depth)` task: depth/mode gate (line 75), registry claim
(line 81), fetch+parse (line 88, oracle `fetchO` standing for
`fetch_and_parse_page`, whose errors are caught and logged), download
fan-out (line 97) and recursion fan-out (line 105). -/
def get_page_content (fetchO : String → Except String (List String × List String))
    (downloadO : String → Except String Unit) (settings : Settings)
    (current_depth : Nat) (url : String) (s : CrawlState) :
    CrawlState × Except String Unit :=
  if depth_gate settings current_depth then
    (s, .ok ())
  else
    match should_process_url url s.visited with
    | .error e => (s, .error e)
    | .ok (proceed, visited) =>
      if proceed then
        let s2 : CrawlState :=
          { s with visited := visited,
                   fetched := s.fetched ++ [(url, current_depth)] }
        match fetchO url with
        | .error _ => (s2, .ok ())
        | .ok (imgs, links) =>
          let s3 := download_images downloadO imgs s2
          if settings.recursive && decide (current_depth < settings.depth) then
            process_links fetchO downloadO settings links current_depth s3
          else
            (s3, .ok ())
      else
        ({ s with visited := visited }, .ok ())
termination_by (settings.depth + 1 - current_depth, 0)
decreasing_by
  simp only [Bool.and_eq_true, decide_eq_true_eq] at *
  apply Prod.Lex.left
  omega

/-- `process_links` (main.rs, lines 190–214): one child task per link at
`current_depth + 1`, sharing the registry.  The concurrent `join_all` is
modelled by sequential execution of the children (one legal interleaving;
the registry's claims are serialized by its lock in the source).  Each
child's result is only logged (lines 208–212), and `Ok(())` is returned
regardless. -/
def process_links (fetchO : String → Except String (List String × List String))
    (downloadO : String → Except String Unit) (settings : Settings)
    (links : List String) (current_depth : Nat) (s : CrawlState) :
    CrawlState × Except String Unit :=
  match links with
  | [] => (s, .ok ())
  | link :: rest =>
    let child := get_page_content fetchO downloadO settings
      (current_depth + 1) link s
    process_links fetchO downloadO settings rest current_depth child.1
termination_by (settings.depth - current_depth, links.length)
decreasing_by
  · simp_wf
    exact Prod.Lex.right _ (by simp)
  · simp_wf
    exact Prod.Lex.right _ (by simp)

end

/-- The report printed by `main` (main.rs, lines 58–61) as a function of
`get_page_content`'s result. -/
def main_report (r : Except String Unit) : String :=
  match r with
  | .ok _ => "Scraping completed successfully!"
  | .error e => "Error during scraping: " ++ e

/-! ## Crawl invariants -/

/-- Depth admissibility of a processed task: the depth/mode gate admits
exactly the depths up to `settings.depth` in recursive mode and only
depth `0` in non-recursive mode. -/
def depth_ok (settings : Settings) (d : Nat) : Prop :=
  if settings.recursive then d ≤ settings.depth else d = 0

/-- The registry invariant tying the fetch log to the visited registry: no
URL appears twice in the fetch log, and every fetched URL is registered. -/
def RegInv (s : CrawlState) : Prop :=
  (s.fetched.map Prod.fst).Nodup ∧ ∀ p ∈ s.fetched, p.1 ∈ s.visited

/-- How a crawl step evolves the state: the registry only grows, the fetch
log only gains entries at admissible depths at least `dlow` whose URLs are
registered, and the registry invariant is preserved. -/
def Evolves (settings : Settings) (dlow : Nat) (s t : CrawlState) : Prop :=
  (∀ u ∈ s.visited, u ∈ t.visited) ∧
  (∃ new, t.fetched = s.fetched ++ new ∧
    ∀ p ∈ new, dlow ≤ p.2 ∧ depth_ok settings p.2 ∧ p.1 ∈ t.visited) ∧
  (RegInv s → RegInv t)

theorem evolves_refl (settings : Settings) (dlow : Nat) (s : CrawlState) :
    Evolves settings dlow s s :=
  ⟨fun _ h => h, ⟨[], by simp, by simp⟩, id⟩

theorem evolves_trans {settings : Settings} {dlow : Nat} {s t u : CrawlState}
    (h1 : Evolves settings dlow s t) (h2 : Evolves settings dlow t u) :
    Evolves settings dlow s u := by
  obtain ⟨m1, ⟨n1, hf1, hp1⟩, r1⟩ := h1
  obtain ⟨m2, ⟨n2, hf2, hp2⟩, r2⟩ := h2
  refine ⟨fun v hv => m2 v (m1 v hv), ⟨n1 ++ n2, by simp [hf2, hf1], ?_⟩,
    fun h => r2 (r1 h)⟩
  intro p hp
  rcases List.mem_append.1 hp with h | h
  · obtain ⟨a, b, c⟩ := hp1 p h
    exact ⟨a, b, m2 _ c⟩
  · exact hp2 p h

theorem evolves_mono {settings : Settings} {d d' : Nat} {s t : CrawlState}
    (hd : d' ≤ d) (h : Evolves settings d s t) : Evolves settings d' s t := by
  obtain ⟨m, ⟨new, hf, hp⟩, r⟩ := h
  refine ⟨m, ⟨new, hf, fun p hpm => ?_⟩, r⟩
  obtain ⟨a, b, c⟩ := hp p hpm
  exact ⟨le_trans hd a, b, c⟩

theorem download_images_visited (downloadO : String → Except String Unit)
    (imgs : List String) (s : CrawlState) :
    (download_images downloadO imgs s).visited = s.visited := by
  induction imgs generalizing s with
  | nil => rfl
  | cons img rest ih =>
    cases hd : downloadO img <;> simp [download_images, hd, ih]

theorem download_images_fetched (downloadO : String → Except String Unit)
    (imgs : List String) (s : CrawlState) :
    (download_images downloadO imgs s).fetched = s.fetched := by
  induction imgs generalizing s with
  | nil => rfl
  | cons img rest ih =>
    cases hd : downloadO img <;> simp [download_images, hd, ih]

/-- Whether an `Except` result is a success. -/
def except_ok (e : Except String Unit) : Bool :=
  match e with
  | .ok _ => true
  | .error _ => false

theorem download_images_attempts (downloadO : String → Except String Unit)
    (imgs : List String) (s : CrawlState) :
    (download_images downloadO imgs s).attempts = s.attempts ++ imgs := by
  induction imgs generalizing s with
  | nil => simp [download_images]
  | cons img rest ih =>
    cases hd : downloadO img <;> simp [download_images, hd, ih]

theorem download_images_saved (downloadO : String → Except String Unit)
    (imgs : List String) (s : CrawlState) :
    (download_images downloadO imgs s).saved
      = s.saved ++ imgs.filter (fun img => except_ok (downloadO img)) := by
  induction imgs generalizing s with
  | nil => simp [download_images]
  | cons img rest ih =>
    cases hd : downloadO img <;>
      simp [download_images, hd, ih, except_ok, List.filter_cons]

theorem depth_gate_high {settings : Settings} {cd : Nat}
    (h : settings.depth + 1 ≤ cd) : depth_gate settings cd = true := by
  cases hr : settings.recursive <;> simp [depth_gate, hr] <;> omega

theorem depth_gate_false_depth_ok {settings : Settings} {cd : Nat}
    (h : depth_gate settings cd = false) : depth_ok settings cd := by
  cases hr : settings.recursive <;> simp [depth_gate, hr] at h <;>
    simp [depth_ok, hr] <;> omega

theorem gpc_gate (fetchO : String → Except String (List String × List String))
    (downloadO : String → Except String Unit) (settings : Settings)
    (cd : Nat) (url : String) (s : CrawlState)
    (h : depth_gate settings cd = true) :
    get_page_content fetchO downloadO settings cd url s = (s, .ok ()) := by
  rw [get_page_content, h]
  simp

theorem reg_step {s : CrawlState} {url : String} {cd : Nat}
    (hv : url ∉ s.visited) (h : RegInv s) :
    RegInv { s with visited := url :: s.visited,
                    fetched := s.fetched ++ [(url, cd)] } := by
  obtain ⟨hn, hm⟩ := h
  constructor
  · simp only [List.map_append]
    refine List.Nodup.append hn (by simp) ?_
    intro a ha hb
    simp at hb
    subst hb
    obtain ⟨p, hp, hpe⟩ := List.mem_map.1 ha
    exact hv (hpe ▸ hm p hp)
  · intro p hp
    rcases List.mem_append.1 hp with h | h
    · exact List.mem_cons_of_mem _ (hm p h)
    · simp at h
      subst h
      exact List.mem_cons_self _ _

theorem evolves_claim {settings : Settings} {cd : Nat} {s : CrawlState}
    {url : String} (hv : url ∉ s.visited) (hok : depth_ok settings cd) :
    Evolves settings cd s
      { s with visited := url :: s.visited,
               fetched := s.fetched ++ [(url, cd)] } := by
  refine ⟨fun u hu => List.mem_cons_of_mem _ hu, ⟨[(url, cd)], rfl, ?_⟩,
    reg_step hv⟩
  intro p hp
  simp at hp
  subst hp
  exact ⟨le_refl _, hok, List.mem_cons_self _ _⟩

theorem regInv_download (downloadO : String → Except String Unit)
    (imgs : List String) {t : CrawlState} (h : RegInv t) :
    RegInv (download_images downloadO imgs t) := by
  have h1 := download_images_visited downloadO imgs t
  have h2 := download_images_fetched downloadO imgs t
  obtain ⟨ha, hb⟩ := h
  exact ⟨h2 ▸ ha, fun p hp => by rw [h1]; exact hb p (h2 ▸ hp)⟩

theorem evolves_download {settings : Settings} {dlow : Nat} {s t : CrawlState}
    (downloadO : String → Except String Unit) (imgs : List String)
    (h : Evolves settings dlow s t) :
    Evolves settings dlow s (download_images downloadO imgs t) := by
  obtain ⟨m, ⟨new, hf, hp⟩, r⟩ := h
  refine ⟨fun u hu => ?_, ⟨new, ?_, fun p hpm => ?_⟩,
    fun hr => regInv_download _ _ (r hr)⟩
  · rw [download_images_visited]; exact m u hu
  · rw [download_images_fetched]; exact hf
  · rw [download_images_visited]; exact hp p hpm

/-- The main crawl induction: every orchestrator call returns `Ok(())` and
evolves the state per `Evolves`, with `n` bounding the remaining depth
budget. -/
theorem crawl_aux (fetchO : String → Except String (List String × List String))
    (downloadO : String → Except String Unit) (settings : Settings) (n : Nat) :
    (∀ cd url s, settings.depth + 1 - cd ≤ n →
      (get_page_content fetchO downloadO settings cd url s).2 = .ok () ∧
      Evolves settings cd s
        (get_page_content fetchO downloadO settings cd url s).1) ∧
    (∀ cd links s, settings.depth - cd ≤ n →
      (process_links fetchO downloadO settings links cd s).2 = .ok () ∧
      Evolves settings (cd + 1) s
        (process_links fetchO downloadO settings links cd s).1) := by
  induction n with
  | zero =>
    constructor
    · intro cd url s hle
      rw [gpc_gate _ _ _ _ _ _ (depth_gate_high (by omega))]
      exact ⟨rfl, evolves_refl _ _ _⟩
    · intro cd links s hle
      induction links generalizing s with
      | nil => simp only [process_links]; exact ⟨trivial, evolves_refl _ _ _⟩
      | cons l rest ih =>
        simp only [process_links]
        rw [gpc_gate _ _ _ _ _ _ (depth_gate_high (by omega))]
        exact ih s
  | succ n ih =>
    have hP : ∀ cd url s, settings.depth + 1 - cd ≤ n + 1 →
        (get_page_content fetchO downloadO settings cd url s).2 = .ok () ∧
        Evolves settings cd s
          (get_page_content fetchO downloadO settings cd url s).1 := by
      intro cd url s hle
      cases hg : depth_gate settings cd with
      | true =>
        rw [gpc_gate _ _ _ _ _ _ hg]
        exact ⟨rfl, evolves_refl _ _ _⟩
      | false =>
        have hok : depth_ok settings cd := depth_gate_false_depth_ok hg
        rw [get_page_content, hg]
        by_cases hv : url ∈ s.visited
        · simp only [should_process_url, if_pos hv, Bool.false_eq_true,
            if_false, if_neg]
          exact ⟨trivial, evolves_refl _ _ _⟩
        · simp only [should_process_url, if_neg hv]
          cases hf : fetchO url with
          | error e =>
            simp only []
            exact ⟨rfl, evolves_claim hv hok⟩
          | ok res =>
            obtain ⟨imgs, links⟩ := res
            simp only []
            cases hrec : settings.recursive && decide (cd < settings.depth) with
            | false =>
              simp only [Bool.false_eq_true, if_false]
              exact ⟨rfl, evolves_download _ _ (evolves_claim hv hok)⟩
            | true =>
              simp only [if_true]
              have hlt : cd < settings.depth := by
                have h2 := hrec
                simp only [Bool.and_eq_true, decide_eq_true_eq] at h2
                exact h2.2
              obtain ⟨hq1, hq2⟩ := ih.2 cd links
                (download_images downloadO imgs
                  { s with visited := url :: s.visited,
                           fetched := s.fetched ++ [(url, cd)] })
                (by omega)
              refine ⟨hq1, evolves_trans ?_ (evolves_mono (by omega) hq2)⟩
              exact evolves_download _ _ (evolves_claim hv hok)
    refine ⟨hP, ?_⟩
    intro cd links s hle
    induction links generalizing s with
    | nil => simp only [process_links]; exact ⟨trivial, evolves_refl _ _ _⟩
    | cons l rest ih2 =>
      simp only [process_links]
      obtain ⟨h1, hev1⟩ := hP (cd + 1) l s (by omega)
      obtain ⟨h2, hev2⟩ :=
        ih2 (get_page_content fetchO downloadO settings (cd + 1) l s).1
      exact ⟨h2, evolves_trans hev1 hev2⟩

/-- Top-level instantiation of the crawl induction. -/
theorem get_page_content_spec
    (fetchO : String → Except String (List String × List String))
    (downloadO : String → Except String Unit) (settings : Settings)
    (cd : Nat) (url : String) (s : CrawlState) :
    (get_page_content fetchO downloadO settings cd url s).2 = .ok () ∧
    Evolves settings cd s
      (get_page_content fetchO downloadO settings cd url s).1 :=
  (crawl_aux fetchO downloadO settings (settings.depth + 1 - cd)).1
    cd url s (le_refl _)

/-! ## Gate and fan-out helper lemmas -/

theorem gpc_gate_cond (fetchO : String → Except String (List String × List String))
    (downloadO : String → Except String Unit) (settings : Settings)
    (cd : Nat) (url : String) (s : CrawlState)
    (h : (settings.recursive = false ∧ 1 ≤ cd) ∨
         (settings.recursive = true ∧ settings.depth < cd)) :
    get_page_content fetchO downloadO settings cd url s = (s, .ok ()) := by
  refine gpc_gate _ _ _ _ _ _ ?_
  rcases h with ⟨hr, hcd⟩ | ⟨hr, hcd⟩ <;> simp [depth_gate, hr] <;> omega

theorem gpc_no_spawn (fetchO : String → Except String (List String × List String))
    (downloadO : String → Except String Unit) (settings : Settings)
    (cd : Nat) (url : String) (s : CrawlState)
    (h : (settings.recursive && decide (cd < settings.depth)) = false) :
    (get_page_content fetchO downloadO settings cd url s).1.fetched = s.fetched ∨
    (get_page_content fetchO downloadO settings cd url s).1.fetched
      = s.fetched ++ [(url, cd)] := by
  cases hg : depth_gate settings cd with
  | true => rw [gpc_gate _ _ _ _ _ _ hg]; exact Or.inl rfl
  | false =>
    rw [get_page_content, hg]
    by_cases hv : url ∈ s.visited
    · simp [should_process_url, hv]
    · simp only [should_process_url, if_neg hv]
      cases hf : fetchO url with
      | error e => exact Or.inr rfl
      | ok res =>
        obtain ⟨imgs, links⟩ := res
        simp [h, download_images_fetched]

theorem gpc_nonrec_seed (fetchO : String → Except String (List String × List String))
    (downloadO : String → Except String Unit) (settings : Settings) (url : String)
    (h : settings.recursive = false) :
    (get_page_content fetchO downloadO settings 0 url init_state).1.fetched
      = [(url, 0)] := by
  have hg : depth_gate settings 0 = false := by simp [depth_gate, h]
  rw [get_page_content, hg]
  have hv : url ∉ init_state.visited := by simp [init_state]
  simp only [should_process_url, if_neg hv]
  cases hf : fetchO url with
  | error e => simp [init_state]
  | ok res =>
    obtain ⟨imgs, links⟩ := res
    simp [h, download_images_fetched, init_state]

/-- Wrapper instantiating the crawl induction for `process_links`. -/
theorem process_links_spec
    (fetchO : String → Except String (List String × List String))
    (downloadO : String → Except String Unit) (settings : Settings)
    (cd : Nat) (links : List String) (s : CrawlState) :
    (process_links fetchO downloadO settings links cd s).2 = .ok () ∧
    Evolves settings (cd + 1) s
      (process_links fetchO downloadO settings links cd s).1 :=
  (crawl_aux fetchO downloadO settings (settings.depth - cd)).2
    cd links s (le_refl _)

theorem gpc_depth_bound (fetchO : String → Except String (List String × List String))
    (downloadO : String → Except String Unit) (settings : Settings)
    (url : String) (p : String × Nat) (hr : settings.recursive = true)
    (hp : p ∈ (get_page_content fetchO downloadO settings 0 url
      init_state).1.fetched) :
    p.2 ≤ settings.depth := by
  obtain ⟨-, ⟨new, hfe, hprop⟩, -⟩ :=
    (get_page_content_spec fetchO downloadO settings 0 url init_state).2
  rw [hfe] at hp
  simp only [init_state, List.nil_append] at hp
  have := (hprop p hp).2.1
  simpa [depth_ok, hr] using this

theorem gpc_processes (fetchO : String → Except String (List String × List String))
    (downloadO : String → Except String Unit) (settings : Settings)
    (cd : Nat) (url : String) (s : CrawlState)
    (hr : settings.recursive = true) (hcd : cd ≤ settings.depth)
    (hv : url ∉ s.visited) :
    (url, cd) ∈ (get_page_content fetchO downloadO settings cd url s).1.fetched := by
  have hg : depth_gate settings cd = false := by simp [depth_gate, hr]; omega
  rw [get_page_content, hg]
  simp only [Bool.false_eq_true, if_false, should_process_url, if_neg hv]
  cases hf : fetchO url with
  | error e => simp
  | ok res =>
    obtain ⟨imgs, links⟩ := res
    cases hrec : settings.recursive && decide (cd < settings.depth) with
    | false => simp [download_images_fetched]
    | true =>
      show (url, cd) ∈
        (process_links fetchO downloadO settings links cd
          (download_images downloadO imgs
            { s with visited := url :: s.visited,
                     fetched := s.fetched ++ [(url, cd)] })).1.fetched
      obtain ⟨-, -, ⟨new, hfe, -⟩, -⟩ :=
        process_links_spec fetchO downloadO settings cd links
          (download_images downloadO imgs
            { s with visited := url :: s.visited,
                     fetched := s.fetched ++ [(url, cd)] })
      rw [hfe, download_images_fetched]
      simp

/-! ## Claim theorems -/

/-- C1: the Visited Registry's claim (`should_process_url`) returns `true`
and registers the URL on the first claim of a given URL string, and
`false` — leaving the set unchanged, the URL still in it — on every
subsequent claim; consequently in every crawl from the initial state the
fetch log contains no URL twice, and every fetched URL was registered by
the claim that preceded its fetch. -/
theorem claim_C1 :
    (∀ url visited, url ∉ visited →
      should_process_url url visited = .ok (true, url :: visited)) ∧
    (∀ url visited, url ∈ visited →
      should_process_url url visited = .ok (false, visited)) ∧
    (∀ fetchO downloadO settings url,
      ((get_page_content fetchO downloadO settings 0 url
          init_state).1.fetched.map Prod.fst).Nodup ∧
      ∀ p ∈ (get_page_content fetchO downloadO settings 0 url
          init_state).1.fetched,
        p.1 ∈ (get_page_content fetchO downloadO settings 0 url
          init_state).1.visited) := by
  refine ⟨fun url visited hv => by simp [should_process_url, hv],
          fun url visited hv => by simp [should_process_url, hv],
          fun fetchO downloadO settings url => ?_⟩
  obtain ⟨-, -, hreg⟩ :=
    (get_page_content_spec fetchO downloadO settings 0 url init_state).2
  exact hreg ⟨by simp [init_state], by simp [init_state]⟩

/-- C1 witness: first claim of a URL yields `true` and registers it; the
second claim of the same URL yields `false`. -/
theorem claim_C1_witness :
    should_process_url "https://site.example/" []
      = .ok (true, ["https://site.example/"]) ∧
    should_process_url "https://site.example/" ["https://site.example/"]
      = .ok (false, ["https://site.example/"]) :=
  ⟨claim_C1.1 "https://site.example/" [] (by simp),
   claim_C1.2.1 "https://site.example/" ["https://site.example/"] (by simp)⟩

/-- C2: the depth/mode gate terminates a task with no effect (not even a
registry claim) when `(not recursive and depth ≥ 1)` or `(recursive and
depth > maxDepth)`; child fetches can only exist when
`recursive && current_depth < maxDepth`; non-recursive mode fetches
exactly the seed; recursive mode fetches only depths `0..=maxDepth`, and
does process a fresh URL at any depth up to `maxDepth`. -/
theorem claim_C2 :
    (∀ fetchO downloadO settings cd url s,
      ((settings.recursive = false ∧ 1 ≤ cd) ∨
       (settings.recursive = true ∧ settings.depth < cd)) →
      get_page_content fetchO downloadO settings cd url s = (s, .ok ())) ∧
    (∀ fetchO downloadO settings cd url s,
      (settings.recursive && decide (cd < settings.depth)) = false →
      (get_page_content fetchO downloadO settings cd url s).1.fetched
        = s.fetched ∨
      (get_page_content fetchO downloadO settings cd url s).1.fetched
        = s.fetched ++ [(url, cd)]) ∧
    (∀ fetchO downloadO settings url, settings.recursive = false →
      (get_page_content fetchO downloadO settings 0 url init_state).1.fetched
        = [(url, 0)]) ∧
    (∀ fetchO downloadO settings url p, settings.recursive = true →
      p ∈ (get_page_content fetchO downloadO settings 0 url
        init_state).1.fetched →
      p.2 ≤ settings.depth) ∧
    (∀ fetchO downloadO settings cd url s,
      settings.recursive = true → cd ≤ settings.depth → url ∉ s.visited →
      (url, cd) ∈ (get_page_content fetchO downloadO settings cd url
        s).1.fetched) :=
  ⟨gpc_gate_cond, gpc_no_spawn, gpc_nonrec_seed, gpc_depth_bound, gpc_processes⟩

/-- C2 witness: at depth 1 in non-recursive mode the gate terminates the
task untouched, and in non-recursive mode the whole crawl fetches exactly
the seed. -/
theorem claim_C2_witness :
    get_page_content (fun _ => .error "x") (fun _ => .ok ())
        ⟨false, 5, "./data"⟩ 1 "https://site.example/a" init_state
      = (init_state, .ok ()) ∧
    (get_page_content (fun _ => .error "x") (fun _ => .ok ())
        ⟨false, 5, "./data"⟩ 0 "https://site.example/a" init_state).1.fetched
      = [("https://site.example/a", 0)] :=
  ⟨claim_C2.1 _ _ ⟨false, 5, "./data"⟩ 1 _ _ (Or.inl ⟨rfl, le_refl 1⟩),
   claim_C2.2.2.1 _ _ ⟨false, 5, "./data"⟩ _ rfl⟩

/-- A fetch oracle modelling `fetch_and_parse_page` on an unparseable seed
URL: `Url::parse(url)?` fails at line 122, so the whole call returns that
error — which `get_page_content` catches at lines 88–94. -/
def fetch_parse_error : String → Except String (List String × List String) :=
  fun _ => .error "relative URL without a base"

/-- C3 counterexample: a crawl whose seed URL fails to parse is *not*
aborted as fatal — the parse error from `fetch_and_parse_page` is caught
inside `get_page_content`, which returns `Ok(())`, and `main` prints the
success report. -/
theorem claim_C3_counterexample :
    get_page_content fetch_parse_error (fun _ => .ok ()) ⟨false, 5, "./data"⟩
        0 "notaurl" init_state
      = ({ visited := ["notaurl"], fetched := [("notaurl", 0)],
           attempts := [], saved := [] }, .ok ()) ∧
    main_report (get_page_content fetch_parse_error (fun _ => .ok ())
        ⟨false, 5, "./data"⟩ 0 "notaurl" init_state).2
      = "Scraping completed successfully!" := by
  constructor <;>
    simp [get_page_content, depth_gate, should_process_url, fetch_parse_error,
      init_state, main_report]

/-- C3 (amended): a seed URL parse failure is handled as a page-level
failure, not a fatal one: the error surfaces from `fetch_and_parse_page`,
is caught and logged by `get_page_content`, which registers the URL,
records the fetch attempt, downloads nothing, and returns `Ok(())`; the
crawl then reports success.  After the HTTP client is constructed, no
error aborts the crawl. -/
theorem claim_C3 (fetchO : String → Except String (List String × List String))
    (downloadO : String → Except String Unit) (settings : Settings)
    (url : String) (s : CrawlState) (e : String)
    (hv : url ∉ s.visited) (hf : fetchO url = .error e) :
    get_page_content fetchO downloadO settings 0 url s
      = ({ s with visited := url :: s.visited,
                  fetched := s.fetched ++ [(url, 0)] }, .ok ()) := by
  have hg : depth_gate settings 0 = false := by
    cases hr : settings.recursive <;> simp [depth_gate, hr]
  rw [get_page_content, hg]
  simp [should_process_url, hv, hf]

/-- C3 witness: concrete instantiation of the amended claim. -/
theorem claim_C3_witness :
    get_page_content fetch_parse_error (fun _ => .ok ()) ⟨true, 3, "./out"⟩
        0 "http//bad" init_state
      = ({ visited := ["http//bad"], fetched := [("http//bad", 0)],
           attempts := [], saved := [] }, .ok ()) :=
  claim_C3 fetch_parse_error (fun _ => .ok ()) ⟨true, 3, "./out"⟩ "http//bad"
    init_state "relative URL without a base" (by simp [init_state]) rfl

/-- C10: `get_page_content` returns `Ok(())` on every input — its error
branch in `main` ("Error during scraping") is unreachable, and every crawl
whose HTTP client was constructed ends in the success report. -/
theorem claim_C10 (fetchO : String → Except String (List String × List String))
    (downloadO : String → Except String Unit) (settings : Settings)
    (current_depth : Nat) (url : String) (s : CrawlState) :
    (get_page_content fetchO downloadO settings current_depth url s).2
      = .ok () ∧
    main_report
      (get_page_content fetchO downloadO settings current_depth url s).2
      = "Scraping completed successfully!" := by
  obtain ⟨h, -⟩ :=
    get_page_content_spec fetchO downloadO settings current_depth url s
  exact ⟨h, by rw [h]; rfl⟩

/-! ## Extraction and filename lemmas -/

/-- Rust's `str::split` always yields at least one piece. -/
theorem splitChar_ne_nil (c : Char) (l : List Char) : splitChar c l ≠ [] := by
  cases l with
  | nil => simp [splitChar]
  | cons a rest =>
    cases h : splitChar c rest with
    | nil => simp [splitChar, h]
    | cons x t =>
      simp only [splitChar, h]
      split <;> simp

/-- Membership characterization of the image-extraction loop. -/
theorem extract_images_mem (join : String → Option UrlM) (srcs : List String)
    (u : String) :
    u ∈ extract_images join srcs ↔
      ∃ src ∈ srcs, starts_with "data:" src = false ∧
        has_valid_extension src valid_extensions = true ∧
        ∃ m, join src = some m ∧ u = m.str := by
  induction srcs with
  | nil => simp [extract_images]
  | cons src rest ih =>
    cases hd : starts_with "data:" src with
    | true => simp only [extract_images, hd, Bool.not_true, Bool.false_eq_true,
        if_false, ih, List.mem_cons]; simp [hd]
    | false =>
      cases he : has_valid_extension src valid_extensions with
      | false => simp only [extract_images, hd, Bool.not_false, if_true, he,
          Bool.false_eq_true, if_false, ih, List.mem_cons]; simp [hd, he]
      | true =>
        cases hj : join src with
        | none => simp only [extract_images, hd, Bool.not_false, if_true, he,
            ih, hj, List.mem_cons]; simp [hd, he, hj]
        | some m =>
          simp only [extract_images, hd, Bool.not_false, if_true, he, ih, hj,
            List.mem_cons]
          simp [hd, he, hj, exists_eq_or_imp]

/-- Membership characterization of the link-extraction loop. -/
theorem extract_links_mem (base_url : UrlM) (join : String → Option UrlM)
    (hrefs : List String) (u : String) :
    u ∈ extract_links base_url join hrefs ↔
      ∃ href ∈ hrefs, ∃ m, join href = some m ∧ m.host = base_url.host ∧
        u = m.str := by
  induction hrefs with
  | nil => simp [extract_links]
  | cons href rest ih =>
    cases hj : join href with
    | none => simp [extract_links, hj, ih]
    | some m =>
      by_cases hh : m.host = base_url.host
      · simp [extract_links, hj, hh, ih, exists_eq_or_imp]
      · simp [extract_links, hj, hh, ih, exists_eq_or_imp]

/-- C4 (code bug): for an image URL whose path ends in `/` (e.g.
`https://site.example/images/`, path `/images/`), the source's
`path().split('/').last()` is `Some("")` — never `None`, since Rust's
`split` always yields a piece — so the `unwrap_or("unknown.jpg")` fallback
is dead code and the computed destination is the output directory itself
(`./data/`), not a file named `unknown.jpg`. -/
theorem claim_C4 :
    download_filename "./data" "/images/" = "./data/" ∧
    ((splitChar '/' "/images/".data).map String.mk).getLast? = some "" ∧
    (∀ url_path : String,
      ((splitChar '/' url_path.data).map String.mk).getLast? ≠ none) ∧
    download_filename "./data" "/a/b.jpg" = "./data/b.jpg" := by
  refine ⟨by decide, by decide, fun url_path => ?_, by decide⟩
  simp only [ne_eq, List.getLast?_eq_none_iff, List.map_eq_nil_iff]
  exact splitChar_ne_nil '/' url_path.data

/-- C5 counterexample: the candidate `a.png?v=1.0` has URL path `a.png`,
whose extension per the specification is `png` — an accepted extension —
yet the source computes the suffix after the last `.` of the *whole*
reference (`0`) and rejects the candidate: no image is extracted. -/
theorem claim_C5_counterexample :
    spec_path_extension "a.png?v=1.0" = "png" ∧
    to_lowercase (spec_path_extension "a.png?v=1.0") ∈ valid_extensions ∧
    has_valid_extension "a.png?v=1.0" valid_extensions = false ∧
    extract_images
      (fun src => some ⟨some "site.example", "/a.png",
        String.append "https://site.example/" src⟩)
      ["a.png?v=1.0"] = [] := by
  refine ⟨by decide, by decide, by decide, by decide⟩

/-- C5 (amended): a candidate is accepted exactly when it does not start
with `data:`, it resolves, and the lowercased piece after the last `.` of
the *entire* raw source attribute string — not of its URL path; the whole
string itself when it contains no `.` — is one of jpg, jpeg, png, gif,
bmp; in particular `a.svg` is rejected and `a.JPG` accepted. -/
theorem claim_C5 :
    has_valid_extension "a.svg" valid_extensions = false ∧
    has_valid_extension "a.JPG" valid_extensions = true ∧
    (∀ src valid_exts, has_valid_extension src valid_exts
      = valid_exts.contains (to_lowercase (String.mk
          ((splitChar '.' src.data).getLast?.getD [])))) ∧
    (∀ join srcs u, u ∈ extract_images join srcs ↔
      ∃ src ∈ srcs, starts_with "data:" src = false ∧
        has_valid_extension src valid_extensions = true ∧
        ∃ m, join src = some m ∧ u = m.str) := by
  refine ⟨by decide, by decide, fun src valid_exts => ?_, extract_images_mem⟩
  unfold has_valid_extension
  cases h : (splitChar '.' src.data).getLast? with
  | some extension => rfl
  | none =>
    exact absurd (List.getLast?_eq_none_iff.mp h)
      (splitChar_ne_nil '.' src.data)

/-- A fetch oracle: one page whose extractor output lists the same image
URL twice. -/
def fetch_dup : String → Except String (List String × List String) := fun u =>
  if u = "https://site.example/" then
    .ok (["https://site.example/a.jpg", "https://site.example/a.jpg"], [])
  else .error "404"

/-- A fetch oracle: page `A` links to page `B` twice (the extractor output
sequence contains the duplicate). -/
def fetch_diamond : String → Except String (List String × List String) :=
  fun u =>
    if u = "https://s/A" then .ok ([], ["https://s/B", "https://s/B"])
    else if u = "https://s/B" then .ok ([], [])
    else .error "404"

/-- A fetch oracle: two distinct pages `A` and `B` both carry the same
image URL, and `A` links to `B`. -/
def fetch_shared_img : String → Except String (List String × List String) :=
  fun u =>
    if u = "https://s/A" then .ok (["https://s/i.jpg"], ["https://s/B"])
    else if u = "https://s/B" then .ok (["https://s/i.jpg"], [])
    else .error "404"

/-- C6 counterexample: a distinct image URL extracted twice on one page
triggers *two* `download_image` invocations — image URLs never pass
through the Visited Registry, so they are not deduplicated. -/
theorem claim_C6_counterexample :
    (get_page_content fetch_dup (fun _ => .ok ()) ⟨false, 5, "./data"⟩ 0
      "https://site.example/" init_state).1.attempts
      = ["https://site.example/a.jpg", "https://site.example/a.jpg"] := by
  simp [get_page_content, depth_gate, should_process_url, fetch_dup,
    download_images, init_state]

/-- The image list a page contributes when fetched: the `imgs` component
of the fetch oracle's result, empty when the fetch fails. -/
def page_imgs (fetchO : String → Except String (List String × List String))
    (url : String) : List String :=
  match fetchO url with
  | .ok (imgs, _) => imgs
  | .error _ => []

/-- Attempts bookkeeping of one crawl step: the fetch log grows by some
entry list, and the attempts log grows by exactly the concatenation, in
fetch order, of the fetched pages' image lists — one `download_image`
invocation per occurrence, duplicates included. -/
def AttemptsOk (fetchO : String → Except String (List String × List String))
    (s t : CrawlState) : Prop :=
  ∃ newf, t.fetched = s.fetched ++ newf ∧
    t.attempts = s.attempts
      ++ (newf.map (fun p => page_imgs fetchO p.1)).flatten

theorem attemptsOk_refl (fetchO : String → Except String (List String × List String))
    (s : CrawlState) : AttemptsOk fetchO s s :=
  ⟨[], by simp, by simp⟩

theorem attemptsOk_trans
    {fetchO : String → Except String (List String × List String)}
    {s t u : CrawlState} (h1 : AttemptsOk fetchO s t)
    (h2 : AttemptsOk fetchO t u) : AttemptsOk fetchO s u := by
  obtain ⟨n1, hf1, ha1⟩ := h1
  obtain ⟨n2, hf2, ha2⟩ := h2
  exact ⟨n1 ++ n2, by simp [hf2, hf1],
    by simp [ha2, ha1, List.flatten_append]⟩

/-- Companion induction to `crawl_aux`, tracking the download-attempt log:
every orchestrator call appends to the attempts log exactly the image
lists of the pages it fetches. -/
theorem crawl_attempts_aux
    (fetchO : String → Except String (List String × List String))
    (downloadO : String → Except String Unit) (settings : Settings) (n : Nat) :
    (∀ cd url s, settings.depth + 1 - cd ≤ n →
      AttemptsOk fetchO s
        (get_page_content fetchO downloadO settings cd url s).1) ∧
    (∀ cd links s, settings.depth - cd ≤ n →
      AttemptsOk fetchO s
        (process_links fetchO downloadO settings links cd s).1) := by
  induction n with
  | zero =>
    constructor
    · intro cd url s hle
      rw [gpc_gate _ _ _ _ _ _ (depth_gate_high (by omega))]
      exact attemptsOk_refl _ _
    · intro cd links s hle
      induction links generalizing s with
      | nil => simp only [process_links]; exact attemptsOk_refl _ _
      | cons l rest ih =>
        simp only [process_links]
        rw [gpc_gate _ _ _ _ _ _ (depth_gate_high (by omega))]
        exact ih s
  | succ n ih =>
    have hP : ∀ cd url s, settings.depth + 1 - cd ≤ n + 1 →
        AttemptsOk fetchO s
          (get_page_content fetchO downloadO settings cd url s).1 := by
      intro cd url s hle
      cases hg : depth_gate settings cd with
      | true =>
        rw [gpc_gate _ _ _ _ _ _ hg]
        exact attemptsOk_refl _ _
      | false =>
        rw [get_page_content, hg]
        by_cases hv : url ∈ s.visited
        · simp only [should_process_url, if_pos hv, Bool.false_eq_true,
            if_false, if_neg]
          exact attemptsOk_refl _ _
        · simp only [should_process_url, if_neg hv]
          cases hf : fetchO url with
          | error e =>
            exact ⟨[(url, cd)], rfl, by simp [page_imgs, hf]⟩
          | ok res =>
            obtain ⟨imgs, links⟩ := res
            cases hrec : settings.recursive && decide (cd < settings.depth) with
            | false =>
              refine ⟨[(url, cd)], ?_, ?_⟩
              · show (download_images downloadO imgs _).fetched = _
                rw [download_images_fetched]
              · show (download_images downloadO imgs _).attempts = _
                rw [download_images_attempts]
                simp [page_imgs, hf]
            | true =>
              have hlt : cd < settings.depth := by
                have h2 := hrec
                simp only [Bool.and_eq_true, decide_eq_true_eq] at h2
                exact h2.2
              refine attemptsOk_trans (t := download_images downloadO imgs
                { s with visited := url :: s.visited,
                         fetched := s.fetched ++ [(url, cd)] })
                ⟨[(url, cd)], ?_, ?_⟩
                (ih.2 cd links _ (by omega))
              · rw [download_images_fetched]
              · rw [download_images_attempts]
                simp [page_imgs, hf]
    refine ⟨hP, ?_⟩
    intro cd links s hle
    induction links generalizing s with
    | nil => simp only [process_links]; exact attemptsOk_refl _ _
    | cons l rest ih2 =>
      simp only [process_links]
      exact attemptsOk_trans (hP (cd + 1) l s (by omega))
        (ih2 (get_page_content fetchO downloadO settings (cd + 1) l s).1)

/-- Top-level instantiation of the attempts induction. -/
theorem get_page_content_attempts
    (fetchO : String → Except String (List String × List String))
    (downloadO : String → Except String Unit) (settings : Settings)
    (cd : Nat) (url : String) (s : CrawlState) :
    AttemptsOk fetchO s
      (get_page_content fetchO downloadO settings cd url s).1 :=
  (crawl_attempts_aux fetchO downloadO settings
    (settings.depth + 1 - cd)).1 cd url s (le_refl _)

/-- C6 (amended): duplicate *link* URLs in the extractor output are
deduplicated by the Registry — a claim of an already-visited URL
terminates the task with no effect, and in the two-links-to-the-same-page
crawl the shared page is fetched once — but *image* URLs are not
deduplicated: in every crawl (recursive or not) the download-attempt log
grows by exactly the concatenation of the fetched pages' image lists, one
`download_image` invocation per occurrence within and across pages;
concretely, the image shared by pages `A` and `B` of a recursive crawl is
attempted twice. -/
theorem claim_C6 :
    (∀ fetchO downloadO settings cd url s, url ∈ s.visited →
      depth_gate settings cd = false →
      get_page_content fetchO downloadO settings cd url s = (s, .ok ())) ∧
    (∀ fetchO downloadO settings cd url s,
      ∃ newf,
        (get_page_content fetchO downloadO settings cd url s).1.fetched
          = s.fetched ++ newf ∧
        (get_page_content fetchO downloadO settings cd url s).1.attempts
          = s.attempts
            ++ (newf.map (fun p => page_imgs fetchO p.1)).flatten) ∧
    ((get_page_content fetch_diamond (fun _ => .ok ()) ⟨true, 1, "./data"⟩ 0
        "https://s/A" init_state).1.fetched
      = [("https://s/A", 0), ("https://s/B", 1)]) ∧
    ((get_page_content fetch_shared_img (fun _ => .ok ()) ⟨true, 1, "./data"⟩
        0 "https://s/A" init_state).1.attempts
      = ["https://s/i.jpg", "https://s/i.jpg"]) := by
  refine ⟨fun fetchO downloadO settings cd url s hv hg => ?_,
          fun fetchO downloadO settings cd url s =>
            get_page_content_attempts fetchO downloadO settings cd url s,
          ?_, ?_⟩
  · rw [get_page_content, hg]
    simp [should_process_url, hv]
  · simp [get_page_content, process_links, depth_gate, should_process_url,
      fetch_diamond, download_images, init_state]
  · simp [get_page_content, process_links, depth_gate, should_process_url,
      fetch_shared_img, download_images, init_state]

/-- C6 witness: a second claim of an already-visited URL leaves the state
untouched (concrete instantiation of the amended claim's registry-dedup
part). -/
theorem claim_C6_witness :
    get_page_content fetch_dup (fun _ => .ok ()) ⟨true, 2, "./data"⟩ 1
        "https://site.example/"
        { visited := ["https://site.example/"], fetched := [],
          attempts := [], saved := [] }
      = ({ visited := ["https://site.example/"], fetched := [],
           attempts := [], saved := [] }, .ok ()) :=
  claim_C6.1 _ _ _ 1 _ _ (by simp) (by decide)

/-- The `base_url.join` oracle for the cross-host scenario of §8. -/
def demo_join : String → Option UrlM := fun href =>
  if href = "https://other.example/x" then
    some ⟨some "other.example", "/x", "https://other.example/x"⟩
  else if href = "https://site.example/y" then
    some ⟨some "site.example", "/y", "https://site.example/y"⟩
  else none

/-- `Url::parse` oracle for the cross-host scenario: only the seed parses. -/
def demo_parse : String → Except String UrlM := fun u =>
  if u = "https://site.example/" then
    .ok ⟨some "site.example", "/", "https://site.example/"⟩
  else .error "relative URL without a base"

/-- HTTP oracle for the cross-host scenario: the seed page carries one
cross-host and one same-host anchor. -/
def demo_http : String → Except String (List String × List String) :=
  fun u =>
    if u = "https://site.example/" then
      .ok ([], ["https://other.example/x", "https://site.example/y"])
    else .error "404"

/-- C7: a resolved anchor is kept by the extractor exactly when its host
component equals the base URL's host component; in the concrete scenario
the cross-host link is discarded by extraction and never fetched by the
recursive crawl, while the same-host link is fetched. -/
theorem claim_C7 :
    (∀ base_url join hrefs u,
      u ∈ extract_links base_url join hrefs ↔
        ∃ href ∈ hrefs, ∃ m, join href = some m ∧ m.host = base_url.host ∧
          u = m.str) ∧
    extract_links ⟨some "site.example", "/", "https://site.example/"⟩
      demo_join ["https://other.example/x", "https://site.example/y"]
      = ["https://site.example/y"] ∧
    (get_page_content (fetch_and_parse_page demo_parse demo_http
        (fun _ => demo_join)) (fun _ => .ok ()) ⟨true, 1, "./data"⟩ 0
        "https://site.example/" init_state).1.fetched
      = [("https://site.example/", 0), ("https://site.example/y", 1)] := by
  refine ⟨extract_links_mem, by decide, ?_⟩
  simp [get_page_content, process_links, depth_gate, should_process_url,
    fetch_and_parse_page, demo_parse, demo_http, demo_join, extract_links,
    extract_images, download_images, init_state]

/-- Download oracle for the failure-isolation scenario: the second of the
three images 404s. -/
def dl404 : String → Except String Unit := fun img =>
  if img = "https://site.example/2.jpg" then .error "404" else .ok ()

/-- Fetch oracle for the failure-isolation scenario: the seed page carries
three images. -/
def fetch3 : String → Except String (List String × List String) := fun u =>
  if u = "https://site.example/" then
    .ok (["https://site.example/1.jpg", "https://site.example/2.jpg",
          "https://site.example/3.jpg"], [])
  else .error "404"

/-- C8: a page-level failure is caught where it occurs and converted into
no effect — the page contributes zero images and zero links and the
caller receives `Ok` — and an image-level failure never stops the
remaining images: every image is attempted, exactly the succeeding ones
are saved; in the three-image scenario with the second 404ing, the first
and third are saved and the crawl reports success. -/
theorem claim_C8 :
    (∀ fetchO downloadO settings cd url s e,
      depth_gate settings cd = false → url ∉ s.visited →
      fetchO url = .error e →
      get_page_content fetchO downloadO settings cd url s
        = ({ s with visited := url :: s.visited,
                    fetched := s.fetched ++ [(url, cd)] }, .ok ())) ∧
    (∀ downloadO imgs s,
      (download_images downloadO imgs s).attempts = s.attempts ++ imgs ∧
      (download_images downloadO imgs s).saved
        = s.saved ++ imgs.filter (fun img => except_ok (downloadO img))) ∧
    ((get_page_content fetch3 dl404 ⟨false, 5, "./data"⟩ 0
        "https://site.example/" init_state).1.attempts
      = ["https://site.example/1.jpg", "https://site.example/2.jpg",
         "https://site.example/3.jpg"] ∧
     (get_page_content fetch3 dl404 ⟨false, 5, "./data"⟩ 0
        "https://site.example/" init_state).1.saved
      = ["https://site.example/1.jpg", "https://site.example/3.jpg"] ∧
     main_report (get_page_content fetch3 dl404 ⟨false, 5, "./data"⟩ 0
        "https://site.example/" init_state).2
      = "Scraping completed successfully!") := by
  refine ⟨fun fetchO downloadO settings cd url s e hg hv hf => ?_,
          fun downloadO imgs s =>
            ⟨download_images_attempts downloadO imgs s,
             download_images_saved downloadO imgs s⟩, ?_⟩
  · rw [get_page_content, hg]
    simp [should_process_url, hv, hf]
  · refine ⟨?_, ?_, ?_⟩ <;>
      simp [get_page_content, depth_gate, should_process_url, fetch3, dl404,
        download_images, init_state, main_report]

/-- C8 witness: concrete page-level failure converted into no effect
beyond registering the URL and logging the attempt. -/
theorem claim_C8_witness :
    get_page_content fetch_parse_error (fun _ => .ok ()) ⟨true, 4, "./data"⟩
        2 "https://site.example/p" init_state
      = ({ visited := ["https://site.example/p"],
           fetched := [("https://site.example/p", 2)], attempts := [],
           saved := [] }, .ok ()) :=
  claim_C8.1 _ _ _ 2 _ _ "relative URL without a base" (by decide)
    (by simp [init_state]) rfl

/-- C9: a candidate whose source attribute begins with `data:` contributes
nothing to the extractor output — removing it from the candidate list
leaves the extraction unchanged, and a `data:` URL alone extracts to
nothing, so no download is ever attempted for it. -/
theorem claim_C9 :
    (∀ join pre post src, starts_with "data:" src = true →
      extract_images join (pre ++ src :: post)
        = extract_images join (pre ++ post)) ∧
    (∀ join src, starts_with "data:" src = true →
      extract_images join [src] = []) ∧
    extract_images (fun s0 => some ⟨some "site.example", "/x", s0⟩)
      ["data:image/png;base64,AAAA"] = [] := by
  refine ⟨?_, fun join src h => by simp [extract_images, h], by decide⟩
  intro join pre post src h
  induction pre with
  | nil => simp [extract_images, h]
  | cons a pre ih =>
    cases hd : starts_with "data:" a with
    | true => simp [extract_images, hd, ih]
    | false =>
      cases he : has_valid_extension a valid_extensions with
      | false => simp [extract_images, hd, he, ih]
      | true =>
        cases hj : join a with
        | none => simp [extract_images, hd, he, hj, ih]
        | some m => simp [extract_images, hd, he, hj, ih]

/-- C9 witness: extraction of a list with a `data:` candidate equals
extraction of the list without it. -/
theorem claim_C9_witness :
    extract_images (fun s0 => some ⟨some "site.example", "/img", s0⟩)
      (["x.jpg"] ++ "data:image/gif;base64,Z0" :: [])
      = extract_images (fun s0 => some ⟨some "site.example", "/img", s0⟩)
        (["x.jpg"] ++ []) :=
  claim_C9.1 _ ["x.jpg"] [] _ (by decide)

end Spider
